import Mathlib

/-!
Verification of the network_monitor repository.

The compiled code (network.h, network.cpp = src/unnamed/part_001, main.cpp)
consists of an abstract `NetworkConnection` and a single concrete
`TCPConnection` that owns a manually allocated C string
(`new char[strlen(ip) + 1]` + `strcpy`), plus a `main` that constructs
`TCPConnection("192.168.1.1", 8080)` and prints it.

Mutable character buffers are modelled by an explicit heap: a bump
allocator handing out fresh addresses plus a total map from addresses to
buffer contents.  C strings are lists of characters; the NUL terminator is
modelled explicitly so that `strlen`/`strcpy` and the allocation size
`strlen(ip) + 1` are faithful to the source.

Parts of the specified design that have no code under src/ (the
`EndpointRegistry`, `Endpoint::duplicate`, validated `Endpoint`
construction, `isValidIPv4`; their implementation files network.cpp's
extended parts, utils.cpp are absent) are modelled from the spec and
marked as such in their doc comments.
-/

/-- A heap of character buffers: `next` is the next free address (bump
allocation), `mem` maps every address to the buffer stored there. -/
structure Heap where
  next : Nat
  mem : Nat → List Char

/-- The empty heap: nothing allocated. -/
def Heap.empty : Heap := { next := 0, mem := fun _ => [] }

/-- Read the buffer at address `a`. -/
def Heap.read (h : Heap) (a : Nat) : List Char := h.mem a

/-- Allocate a fresh buffer holding `s`; returns its address and the new
heap.  Models `new char[...]` followed by filling the buffer. -/
def Heap.alloc (h : Heap) (s : List Char) : Nat × Heap :=
  (h.next, { next := h.next + 1
             mem := fun a => if a = h.next then s else h.mem a })

/-- Overwrite the buffer at address `a` with `s` (mutation of existing
storage). -/
def Heap.write (h : Heap) (a : Nat) (s : List Char) : Heap :=
  { h with mem := fun b => if b = a then s else h.mem b }

@[simp] theorem Heap.read_alloc_self (h : Heap) (s : List Char) :
    (h.alloc s).2.read (h.alloc s).1 = s := by
  simp [Heap.alloc, Heap.read]

theorem Heap.read_alloc_ne (h : Heap) (s : List Char) (a : Nat)
    (hne : a ≠ h.next) : (h.alloc s).2.read a = h.read a := by
  simp [Heap.alloc, Heap.read, hne]

@[simp] theorem Heap.alloc_fst (h : Heap) (s : List Char) :
    (h.alloc s).1 = h.next := rfl

@[simp] theorem Heap.alloc_next (h : Heap) (s : List Char) :
    (h.alloc s).2.next = h.next + 1 := rfl

@[simp] theorem Heap.read_write_self (h : Heap) (a : Nat) (s : List Char) :
    (h.write a s).read a = s := by
  simp [Heap.write, Heap.read]

theorem Heap.read_write_ne (h : Heap) (a b : Nat) (s : List Char)
    (hne : b ≠ a) : (h.write a s).read b = h.read b := by
  simp [Heap.write, Heap.read, hne]

@[simp] theorem Heap.write_next (h : Heap) (a : Nat) (s : List Char) :
    (h.write a s).next = h.next := rfl

/-- The NUL terminator character. -/
def nulChar : Char := Char.ofNat 0

/-- The character content of a C string: everything before the first NUL. -/
def cstr (l : List Char) : List Char := l.takeWhile (fun c => c ≠ nulChar)

/-- Model of C `strlen`: number of characters before the first NUL. -/
def strlen (l : List Char) : Nat := (cstr l).length

/-- The bytes `strcpy` deposits in the destination buffer: the source's
characters up to and including the NUL terminator. -/
def strcpyImage (src : List Char) : List Char := cstr src ++ [nulChar]

/-- Embedding of the `TCPConnection` class of network.h: an owned pointer
`ipAddress` into the heap and an `int` port. -/
structure TCPConnection where
  ipAddress : Nat
  port : Int

/-- Embedding of `TCPConnection::TCPConnection(const char* ip, int p)`
(src/unnamed/part_001 lines 4-7): reads the caller's buffer at address
`ip`, allocates fresh storage of `strlen(ip) + 1` bytes, and `strcpy`s
the argument into it.  Total: the source imposes no precondition and
signals no error. -/
def TCPConnection.construct (h : Heap) (ip : Nat) (p : Int) :
    TCPConnection × Heap :=
  let s := strcpyImage (h.read ip)
  let (a, h') := h.alloc s
  ({ ipAddress := a, port := p }, h')

/-- The line written by `TCPConnection::displayInfo` (src/unnamed/part_001
lines 8-10): `"TCP Connection: <ip>:<port>"`, where the ip is the stored C
string read up to its NUL terminator. -/
def TCPConnection.displayInfo (c : TCPConnection) (h : Heap) : String :=
  "TCP Connection: " ++ String.mk (cstr (h.read c.ipAddress)) ++ ":"
    ++ toString c.port

/-- Embedding of the full effect of `displayInfo() const`: it is a `const`
member that only inspects `ipAddress` and `port` and streams one line to
the output sink; the connection and the heap come back unchanged. -/
def TCPConnection.displayInfoRun (c : TCPConnection) (h : Heap)
    (out : List String) : TCPConnection × Heap × List String :=
  (c, h, out ++ [c.displayInfo h])

theorem cstr_all_ne_nul (l : List Char) : ∀ c ∈ cstr l, c ≠ nulChar := by
  intro c hc
  have := List.mem_takeWhile_imp hc
  simpa using this

theorem takeWhile_append_of_all {p : Char → Bool} (l r : List Char)
    (hl : ∀ c ∈ l, p c = true) :
    (l ++ r).takeWhile p = l ++ r.takeWhile p := by
  induction l with
  | nil => simp
  | cons x xs ih =>
    have hx : p x = true := hl x (List.mem_cons_self x xs)
    have hxs : ∀ c ∈ xs, p c = true := fun c hc => hl c (List.mem_cons_of_mem x hc)
    simp [List.takeWhile, hx, ih hxs]

/-- Taking the C-string content of a freshly `strcpy`ed buffer gives back
the source's C-string content. -/
theorem cstr_strcpyImage (s : List Char) : cstr (strcpyImage s) = cstr s := by
  unfold strcpyImage cstr
  rw [takeWhile_append_of_all]
  · simp [List.takeWhile, nulChar]
  · intro c hc
    have := cstr_all_ne_nul s c hc
    simpa using this

@[simp] theorem Heap.read_alloc_fresh (h : Heap) (s : List Char) :
    (h.alloc s).2.read h.next = s := Heap.read_alloc_self h s

theorem TCPConnection.construct_fst (h : Heap) (b : Nat) (p : Int) :
    (TCPConnection.construct h b p).1 = { ipAddress := h.next, port := p } := rfl

theorem TCPConnection.construct_snd (h : Heap) (b : Nat) (p : Int) :
    (TCPConnection.construct h b p).2 = (h.alloc (strcpyImage (h.read b))).2 := rfl

/-- Shared evaluation of the main.cpp scenario: constructing
`TCPConnection("192.168.1.1", 8080)` on a heap holding the literal and
rendering it. -/
theorem displayScenario_eval :
    (TCPConnection.construct ((Heap.empty.alloc "192.168.1.1".toList).2)
        ((Heap.empty.alloc "192.168.1.1".toList).1) 8080).1.displayInfo
      ((TCPConnection.construct ((Heap.empty.alloc "192.168.1.1".toList).2)
        ((Heap.empty.alloc "192.168.1.1".toList).1) 8080).2)
      = "TCP Connection: 192.168.1.1:8080" := by decide

/-- C4: constructing a TCP endpoint with address "192.168.1.1" and port
8080 and then calling displayInfo() produces exactly the line
"TCP Connection: 192.168.1.1:8080", matching the display format
"<Kind> Connection: <address>:<port>". -/
theorem TCPConnection.display_concrete_scenario :
    (TCPConnection.construct ((Heap.empty.alloc "192.168.1.1".toList).2)
        ((Heap.empty.alloc "192.168.1.1".toList).1) 8080).1.displayInfo
      ((TCPConnection.construct ((Heap.empty.alloc "192.168.1.1".toList).2)
        ((Heap.empty.alloc "192.168.1.1".toList).1) 8080).2)
      = "TCP Connection: 192.168.1.1:8080" := displayScenario_eval

/-- C10: the TCPConnection constructor imposes no precondition and never
signals an error: for every caller buffer and every int port (negative or
above 65535 included), construction succeeds (the embedding is total) and
displayInfo() renders exactly the unvalidated address C string and port. -/
theorem TCPConnection.construct_total_renders_unvalidated
    (h : Heap) (b : Nat) (p : Int) :
    (TCPConnection.construct h b p).1.displayInfo (TCPConnection.construct h b p).2
        = "TCP Connection: " ++ String.mk (cstr (h.read b)) ++ ":" ++ toString p
    ∧ (TCPConnection.construct h b p).1.port = p := by
  refine ⟨?_, rfl⟩
  rw [TCPConnection.construct_fst, TCPConnection.construct_snd]
  simp [TCPConnection.displayInfo, cstr_strcpyImage]

/-- C9: the constructor copies its ip argument into freshly allocated
owned storage of length strlen(ip)+1: after construction the stored
buffer is byte-for-byte the strcpy image of the caller's buffer at
construction time, lives at a fresh address distinct from the caller's,
and mutating the caller's buffer afterwards never changes displayInfo(). -/
theorem TCPConnection.construct_copies_into_fresh_storage
    (h : Heap) (b : Nat) (p : Int) (hb : b < h.next) :
    (TCPConnection.construct h b p).2.read (TCPConnection.construct h b p).1.ipAddress
        = strcpyImage (h.read b)
    ∧ ((TCPConnection.construct h b p).2.read
        (TCPConnection.construct h b p).1.ipAddress).length = strlen (h.read b) + 1
    ∧ (TCPConnection.construct h b p).1.ipAddress ≠ b
    ∧ ∀ s, (TCPConnection.construct h b p).1.displayInfo
          ((TCPConnection.construct h b p).2.write b s)
        = (TCPConnection.construct h b p).1.displayInfo
          (TCPConnection.construct h b p).2 := by
  rw [TCPConnection.construct_fst, TCPConnection.construct_snd]
  have hne : h.next ≠ b := by omega
  refine ⟨by simp, by simp [strcpyImage, strlen], hne, ?_⟩
  intro s
  simp [TCPConnection.displayInfo, Heap.read_write_ne _ _ _ _ hne]

/-- Concrete heap used by the witnesses: one allocated buffer (address 0)
holding "10.0.0.1". -/
def heapW : Heap := (Heap.empty.alloc "10.0.0.1".toList).2

theorem TCPConnection.construct_copies_into_fresh_storage_witness :
    0 < heapW.next
    ∧ ((TCPConnection.construct heapW 0 5).2.read
          (TCPConnection.construct heapW 0 5).1.ipAddress
        = strcpyImage (heapW.read 0)
      ∧ ((TCPConnection.construct heapW 0 5).2.read
          (TCPConnection.construct heapW 0 5).1.ipAddress).length
          = strlen (heapW.read 0) + 1
      ∧ (TCPConnection.construct heapW 0 5).1.ipAddress ≠ 0
      ∧ ∀ s, (TCPConnection.construct heapW 0 5).1.displayInfo
            ((TCPConnection.construct heapW 0 5).2.write 0 s)
          = (TCPConnection.construct heapW 0 5).1.displayInfo
            (TCPConnection.construct heapW 0 5).2) :=
  ⟨by decide, TCPConnection.construct_copies_into_fresh_storage heapW 0 5 (by decide)⟩

/-- C8: displayInfo() is a pure query: running it leaves the connection
and the heap unchanged and only appends the summary line to the output
sink. -/
theorem TCPConnection.displayInfo_pure_query
    (c : TCPConnection) (h : Heap) (out : List String) :
    (c.displayInfoRun h out).1 = c
    ∧ (c.displayInfoRun h out).2.1 = h
    ∧ (c.displayInfoRun h out).2.2 = out ++ [c.displayInfo h] :=
  ⟨rfl, rfl, rfl⟩

/-- The substring relation on character lists: `sub` occurs contiguously
inside `big`. -/
def ContainsSub (sub big : List Char) : Prop :=
  ∃ l r, big = l ++ (sub ++ r)

/-- C5: for every caller buffer holding a non-empty NUL-free address text
and every port in [0, 65535], the displayInfo() output of the endpoint
constructed from them contains the address text and the decimal string of
the port as substrings. -/
theorem TCPConnection.displayInfo_contains_address_and_port
    (h : Heap) (b : Nat) (p : Int)
    (hne : h.read b ≠ []) (hnul : ∀ c ∈ h.read b, c ≠ nulChar)
    (hp0 : 0 ≤ p) (hp1 : p ≤ 65535) :
    ContainsSub (h.read b)
      (((TCPConnection.construct h b p).1.displayInfo
        (TCPConnection.construct h b p).2).toList)
    ∧ ContainsSub ((toString p).toList)
      (((TCPConnection.construct h b p).1.displayInfo
        (TCPConnection.construct h b p).2).toList) := by
  have hcs : cstr (h.read b) = h.read b := by
    apply List.takeWhile_eq_self_iff.mpr
    intro a ha
    simpa using hnul a ha
  rw [TCPConnection.construct_fst, TCPConnection.construct_snd]
  constructor
  · refine ⟨"TCP Connection: ".toList, (":" ++ toString p).toList, ?_⟩
    simp [TCPConnection.displayInfo, cstr_strcpyImage, hcs, String.toList]
  · refine ⟨("TCP Connection: ").toList ++ h.read b ++ ":".toList, [], ?_⟩
    simp [TCPConnection.displayInfo, cstr_strcpyImage, hcs, String.toList]

theorem TCPConnection.displayInfo_contains_address_and_port_witness :
    (heapW.read 0 ≠ [] ∧ (∀ c ∈ heapW.read 0, c ≠ nulChar)
      ∧ (0 : Int) ≤ 5 ∧ (5 : Int) ≤ 65535)
    ∧ (ContainsSub (heapW.read 0)
        (((TCPConnection.construct heapW 0 5).1.displayInfo
          (TCPConnection.construct heapW 0 5).2).toList)
      ∧ ContainsSub ((toString (5 : Int)).toList)
        (((TCPConnection.construct heapW 0 5).1.displayInfo
          (TCPConnection.construct heapW 0 5).2).toList)) :=
  ⟨⟨by decide, by decide, by decide, by decide⟩,
    TCPConnection.displayInfo_contains_address_and_port heapW 0 5
      (by decide) (by decide) (by decide) (by decide)⟩

/-- Modelled from the spec: the transport kinds of the generalized
`Endpoint` design (section 3); only the TCP variant exists in src/. -/
inductive TransportKind where
  | TCP
  | UDP
deriving DecidableEq

/-- Display name of a transport kind, as used in the documented format
`"<Kind> Connection: <address>:<port>"`. -/
def TransportKind.str : TransportKind → String
  | .TCP => "TCP"
  | .UDP => "UDP"

/-- Modelled from the spec: the generalized `Endpoint` of sections 3-4
(absent from src/, where only `TCPConnection` is compiled): transport
kind, an owned text buffer held at a heap address, and a port. -/
structure Endpoint where
  kind : TransportKind
  addr : Nat
  port : Int

/-- Modelled from the spec: `displayInfo() -> text` for the generalized
`Endpoint`: a one-line summary `"<Kind> Connection: <address>:<port>"`. -/
def Endpoint.displayInfo (e : Endpoint) (h : Heap) : String :=
  e.kind.str ++ " Connection: " ++ String.mk (h.read e.addr) ++ ":"
    ++ toString e.port

/-- Modelled from the spec: `duplicate() -> new Endpoint` (absent from
src/): returns a new, independently-owned instance with identical field
values, its address text copied into freshly allocated storage. -/
def Endpoint.duplicate (e : Endpoint) (h : Heap) : Endpoint × Heap :=
  let (a, h') := h.alloc (h.read e.addr)
  ({ e with addr := a }, h')

theorem Endpoint.duplicate_result (e : Endpoint) (h : Heap) :
    (e.duplicate h).1 = { e with addr := h.next } := rfl

theorem Endpoint.duplicate_heap (e : Endpoint) (h : Heap) :
    (e.duplicate h).2 = (h.alloc (h.read e.addr)).2 := rfl

/-- C2: for every live endpoint e, e.duplicate() returns a new endpoint
that is value-equal to e (displayInfo() output matches, before and after
duplication) and shares no storage with e, so that mutating either
endpoint's backing address storage never changes the other's output. -/
theorem Endpoint.duplicate_deep_copy (e : Endpoint) (h : Heap)
    (he : e.addr < h.next) :
    (e.duplicate h).1.displayInfo (e.duplicate h).2 = e.displayInfo (e.duplicate h).2
    ∧ e.displayInfo (e.duplicate h).2 = e.displayInfo h
    ∧ (e.duplicate h).1.addr ≠ e.addr
    ∧ (∀ s, (e.duplicate h).1.displayInfo ((e.duplicate h).2.write e.addr s)
          = (e.duplicate h).1.displayInfo (e.duplicate h).2)
    ∧ (∀ s, e.displayInfo ((e.duplicate h).2.write (e.duplicate h).1.addr s)
          = e.displayInfo (e.duplicate h).2) := by
  rw [Endpoint.duplicate_result, Endpoint.duplicate_heap]
  have hne : h.next ≠ e.addr := by omega
  have hrd : (h.alloc (h.read e.addr)).2.read e.addr = h.read e.addr :=
    Heap.read_alloc_ne h _ e.addr (by omega)
  refine ⟨?_, ?_, hne, ?_, ?_⟩
  · simp [Endpoint.displayInfo, hrd]
  · simp [Endpoint.displayInfo, hrd]
  · intro s
    simp [Endpoint.displayInfo, Heap.read_write_ne _ _ _ _ hne]
  · intro s
    simp [Endpoint.displayInfo, hrd,
      Heap.read_write_ne _ _ _ _ (fun hq => hne hq.symm)]

/-- Concrete endpoint used by witnesses: kind TCP, buffer at address 0 of
`heapW`, port 5. -/
def endpointW : Endpoint := { kind := .TCP, addr := 0, port := 5 }

theorem Endpoint.duplicate_deep_copy_witness :
    endpointW.addr < heapW.next
    ∧ ((endpointW.duplicate heapW).1.displayInfo (endpointW.duplicate heapW).2
          = endpointW.displayInfo (endpointW.duplicate heapW).2
      ∧ endpointW.displayInfo (endpointW.duplicate heapW).2
          = endpointW.displayInfo heapW
      ∧ (endpointW.duplicate heapW).1.addr ≠ endpointW.addr
      ∧ (∀ s, (endpointW.duplicate heapW).1.displayInfo
              ((endpointW.duplicate heapW).2.write endpointW.addr s)
            = (endpointW.duplicate heapW).1.displayInfo
              (endpointW.duplicate heapW).2)
      ∧ (∀ s, endpointW.displayInfo
              ((endpointW.duplicate heapW).2.write
                (endpointW.duplicate heapW).1.addr s)
            = endpointW.displayInfo (endpointW.duplicate heapW).2)) :=
  ⟨by decide, Endpoint.duplicate_deep_copy endpointW heapW (by decide)⟩

/-- Modelled from the spec: the error taxonomy of section 7; only
`InvalidArgument` exists. -/
inductive NetError where
  | InvalidArgument
deriving DecidableEq

/-- Modelled from the spec: validated `Endpoint` construction (section
4.1, absent from src/): `Endpoint(address, port)` fails with
`InvalidArgument` when port is outside [0, 65535] or address is empty;
otherwise it allocates the owned address buffer and returns the endpoint.
On failure no object is returned. -/
def Endpoint.construct (k : TransportKind) (address : String) (p : Int)
    (h : Heap) : Except NetError (Endpoint × Heap) :=
  if p < 0 ∨ 65535 < p ∨ address = "" then
    .error .InvalidArgument
  else
    let (a, h') := h.alloc address.toList
    .ok ({ kind := k, addr := a, port := p }, h')

/-- C3: Endpoint construction fails with InvalidArgument exactly when the
port is outside [0, 65535] or the address is empty; in particular port
70000 yields InvalidArgument, and on failure no object is returned. -/
theorem Endpoint.construct_invalid_argument_iff :
    (∀ (k : TransportKind) (address : String) (p : Int) (h : Heap),
      Endpoint.construct k address p h = .error .InvalidArgument
        ↔ (p < 0 ∨ 65535 < p ∨ address = ""))
    ∧ (∀ h : Heap,
      Endpoint.construct .TCP "192.168.1.1" 70000 h = .error .InvalidArgument) := by
  constructor
  · intro k address p h
    by_cases hc : p < 0 ∨ 65535 < p ∨ address = ""
    · simp [Endpoint.construct, hc]
    · simp [Endpoint.construct, hc]
  · intro h
    simp [Endpoint.construct]

/-- Modelled from the spec: element-wise deep duplication of a list of
endpoints (the loop inside `EndpointRegistry::duplicate`, absent from
src/): element i of the result is `elements[i].duplicate()`, threaded
through the heap left to right. -/
def dupElems : List Endpoint → Heap → List Endpoint × Heap
  | [], h => ([], h)
  | e :: es, h =>
    let (e', h') := e.duplicate h
    let (es', h'') := dupElems es h'
    (e' :: es', h'')

theorem dupElems_cons (e : Endpoint) (es : List Endpoint) (h : Heap) :
    dupElems (e :: es) h
      = ((e.duplicate h).1 :: (dupElems es (e.duplicate h).2).1,
         (dupElems es (e.duplicate h).2).2) := rfl

theorem dupElems_cons_fst (e : Endpoint) (es : List Endpoint) (h : Heap) :
    (dupElems (e :: es) h).1
      = (e.duplicate h).1 :: (dupElems es (e.duplicate h).2).1 := rfl

theorem dupElems_cons_snd (e : Endpoint) (es : List Endpoint) (h : Heap) :
    (dupElems (e :: es) h).2 = (dupElems es (e.duplicate h).2).2 := rfl

theorem dupElems_length (es : List Endpoint) (h : Heap) :
    (dupElems es h).1.length = es.length := by
  induction es generalizing h with
  | nil => rfl
  | cons e rest ih =>
    rw [dupElems_cons]
    simp [ih]

theorem dupElems_next_le (es : List Endpoint) (h : Heap) :
    h.next ≤ (dupElems es h).2.next := by
  induction es generalizing h with
  | nil => exact Nat.le_refl _
  | cons e rest ih =>
    rw [dupElems_cons]
    have h1 : h.next ≤ (e.duplicate h).2.next := by
      rw [Endpoint.duplicate_heap, Heap.alloc_next]
      omega
    exact Nat.le_trans h1 (ih _)

theorem dupElems_read_preserved (es : List Endpoint) (h : Heap) (a : Nat)
    (ha : a < h.next) : (dupElems es h).2.read a = h.read a := by
  induction es generalizing h with
  | nil => rfl
  | cons e rest ih =>
    rw [dupElems_cons]
    have hstep : (e.duplicate h).2.read a = h.read a := by
      rw [Endpoint.duplicate_heap]
      exact Heap.read_alloc_ne h _ a (by omega)
    have ha' : a < (e.duplicate h).2.next := by
      rw [Endpoint.duplicate_heap, Heap.alloc_next]
      omega
    rw [ih _ ha', hstep]

theorem dupElems_addr_lower (es : List Endpoint) (h : Heap) :
    ∀ e' ∈ (dupElems es h).1, h.next ≤ e'.addr := by
  induction es generalizing h with
  | nil => simp [dupElems]
  | cons e rest ih =>
    rw [dupElems_cons]
    intro e' he'
    rcases List.mem_cons.mp he' with h1 | h2
    · subst h1
      simp [Endpoint.duplicate_result]
    · have hr := ih (e.duplicate h).2 e' h2
      have hle : h.next ≤ (e.duplicate h).2.next := by
        rw [Endpoint.duplicate_heap, Heap.alloc_next]
        omega
      omega

theorem dupElems_getElem (es : List Endpoint) (h : Heap)
    (hv : ∀ e ∈ es, e.addr < h.next) (i : Nat) (e : Endpoint)
    (hget : es[i]? = some e) :
    ∃ e', (dupElems es h).1[i]? = some e'
      ∧ e'.kind = e.kind ∧ e'.port = e.port ∧ h.next ≤ e'.addr
      ∧ e'.addr < (dupElems es h).2.next
      ∧ (dupElems es h).2.read e'.addr = h.read e.addr := by
  induction es generalizing h i with
  | nil => simp at hget
  | cons e0 rest ih =>
    have hnext' : (e0.duplicate h).2.next = h.next + 1 := by
      rw [Endpoint.duplicate_heap, Heap.alloc_next]
    rw [dupElems_cons_fst, dupElems_cons_snd]
    cases i with
    | zero =>
      have he0 : e0 = e := by simpa using hget
      subst he0
      have haddr : (e0.duplicate h).1.addr = h.next := by
        rw [Endpoint.duplicate_result]
      have hkind : (e0.duplicate h).1.kind = e0.kind := by
        rw [Endpoint.duplicate_result]
      have hport : (e0.duplicate h).1.port = e0.port := by
        rw [Endpoint.duplicate_result]
      have hle := dupElems_next_le rest (e0.duplicate h).2
      refine ⟨(e0.duplicate h).1, by simp, hkind, hport, by omega, by omega, ?_⟩
      rw [haddr]
      have hpres : (dupElems rest (e0.duplicate h).2).2.read h.next
          = (e0.duplicate h).2.read h.next :=
        dupElems_read_preserved _ _ _ (by omega)
      rw [hpres, Endpoint.duplicate_heap, Heap.read_alloc_fresh]
    | succ i =>
      have hget' : rest[i]? = some e := by simpa using hget
      have hv' : ∀ f ∈ rest, f.addr < (e0.duplicate h).2.next := by
        intro f hf
        have := hv f (List.mem_cons_of_mem e0 hf)
        omega
      obtain ⟨e', hsome, hkind, hport, hlow, hhigh, hread⟩ :=
        ih (e0.duplicate h).2 hv' i hget'
      have hmem : e ∈ rest := List.getElem?_mem hget'
      have headdr : e.addr < h.next := hv e (List.mem_cons_of_mem e0 hmem)
      have hread0 : (e0.duplicate h).2.read e.addr = h.read e.addr := by
        rw [Endpoint.duplicate_heap]
        exact Heap.read_alloc_ne h _ e.addr (by omega)
      refine ⟨e', by simpa using hsome, hkind, hport, by omega, hhigh, ?_⟩
      rw [hread, hread0]

/-- Modelled from the spec: `EndpointRegistry` (section 3, absent from
src/): an ordered sequence of exclusively-owned endpoints. -/
structure EndpointRegistry where
  elements : List Endpoint

/-- Modelled from the spec: `count() -> integer`, the current number of
elements. -/
def EndpointRegistry.count (r : EndpointRegistry) : Nat := r.elements.length

/-- Modelled from the spec: `duplicate() -> new EndpointRegistry`:
a registry of equal length whose element i is `elements[i].duplicate()`. -/
def EndpointRegistry.duplicate (r : EndpointRegistry) (h : Heap) :
    EndpointRegistry × Heap :=
  let (es, h') := dupElems r.elements h
  ({ elements := es }, h')

theorem EndpointRegistry.duplicate_elements_eq (r : EndpointRegistry) (h : Heap) :
    (r.duplicate h).1.elements = (dupElems r.elements h).1 := rfl

theorem EndpointRegistry.duplicate_heap_eq (r : EndpointRegistry) (h : Heap) :
    (r.duplicate h).2 = (dupElems r.elements h).2 := rfl

/-- C1: for every live registry r, r.duplicate() produces a registry of
equal length (count preserved) whose element i duplicates elements[i]:
its displayInfo() in the new heap equals the source element's before
duplication; no storage aliasing between source and result at any level
(the addresses differ, and mutating any source element's storage never
changes a duplicated element's output, nor does mutating any duplicated
element's storage change a source element's output). -/
theorem EndpointRegistry.duplicate_deep (r : EndpointRegistry) (h : Heap)
    (hv : ∀ e ∈ r.elements, e.addr < h.next) :
    (r.duplicate h).1.count = r.count
    ∧ ∀ (i : Nat) (e : Endpoint), r.elements[i]? = some e →
        ∃ e' : Endpoint, (r.duplicate h).1.elements[i]? = some e'
          ∧ e'.displayInfo (r.duplicate h).2 = e.displayInfo h
          ∧ e'.addr ≠ e.addr
          ∧ (∀ (s : List Char) (j : Nat) (f : Endpoint),
              r.elements[j]? = some f →
              e'.displayInfo ((r.duplicate h).2.write f.addr s)
                = e'.displayInfo (r.duplicate h).2)
          ∧ (∀ (s : List Char) (j : Nat) (f : Endpoint),
              (r.duplicate h).1.elements[j]? = some f →
              e.displayInfo ((r.duplicate h).2.write f.addr s)
                = e.displayInfo h) := by
  constructor
  · show (r.duplicate h).1.elements.length = r.elements.length
    rw [EndpointRegistry.duplicate_elements_eq, dupElems_length]
  · intro i e hget
    obtain ⟨e', hsome, hkind, hport, hlow, hhigh, hread⟩ :=
      dupElems_getElem r.elements h hv i e hget
    have hmem : e ∈ r.elements := List.getElem?_mem hget
    have headdr : e.addr < h.next := hv e hmem
    refine ⟨e', by rw [EndpointRegistry.duplicate_elements_eq]; exact hsome,
      ?_, by omega, ?_, ?_⟩
    · rw [EndpointRegistry.duplicate_heap_eq]
      simp [Endpoint.displayInfo, hkind, hport, hread]
    · intro s j f hf
      have hfmem : f ∈ r.elements := List.getElem?_mem hf
      have hfa : f.addr < h.next := hv f hfmem
      rw [EndpointRegistry.duplicate_heap_eq]
      have hrw : ((dupElems r.elements h).2.write f.addr s).read e'.addr
          = (dupElems r.elements h).2.read e'.addr :=
        Heap.read_write_ne _ _ _ _ (by omega)
      simp [Endpoint.displayInfo, hrw]
    · intro s j f hf
      rw [EndpointRegistry.duplicate_elements_eq] at hf
      have hfmem : f ∈ (dupElems r.elements h).1 := List.getElem?_mem hf
      have hfa : h.next ≤ f.addr := dupElems_addr_lower r.elements h f hfmem
      rw [EndpointRegistry.duplicate_heap_eq]
      have h1 : ((dupElems r.elements h).2.write f.addr s).read e.addr
          = (dupElems r.elements h).2.read e.addr :=
        Heap.read_write_ne _ _ _ _ (by omega)
      have h2 : (dupElems r.elements h).2.read e.addr = h.read e.addr :=
        dupElems_read_preserved _ _ _ headdr
      simp [Endpoint.displayInfo, h1, h2]

/-- Concrete two-buffer heap used by the registry witness. -/
def heap2 : Heap :=
  ((Heap.empty.alloc "10.0.0.1".toList).2.alloc "8.8.8.8".toList).2

/-- Concrete two-element registry used by the registry witness: a TCP and
a UDP endpoint over the two buffers of `heap2`. -/
def regW : EndpointRegistry :=
  { elements := [{ kind := .TCP, addr := 0, port := 8080 },
                 { kind := .UDP, addr := 1, port := 53 }] }

theorem EndpointRegistry.duplicate_deep_witness :
    (∀ e ∈ regW.elements, e.addr < heap2.next)
    ∧ ((regW.duplicate heap2).1.count = regW.count
      ∧ ∀ (i : Nat) (e : Endpoint), regW.elements[i]? = some e →
          ∃ e' : Endpoint, (regW.duplicate heap2).1.elements[i]? = some e'
            ∧ e'.displayInfo (regW.duplicate heap2).2 = e.displayInfo heap2
            ∧ e'.addr ≠ e.addr
            ∧ (∀ (s : List Char) (j : Nat) (f : Endpoint),
                regW.elements[j]? = some f →
                e'.displayInfo ((regW.duplicate heap2).2.write f.addr s)
                  = e'.displayInfo (regW.duplicate heap2).2)
            ∧ (∀ (s : List Char) (j : Nat) (f : Endpoint),
                (regW.duplicate heap2).1.elements[j]? = some f →
                e.displayInfo ((regW.duplicate heap2).2.write f.addr s)
                  = e.displayInfo heap2)) :=
  ⟨by decide, EndpointRegistry.duplicate_deep regW heap2 (by decide)⟩

/-- Modelled from the spec: value of a run of decimal digit characters. -/
def octetValue (l : List Char) : Nat :=
  l.foldl (fun acc c => acc * 10 + (c.toNat - '0'.toNat)) 0

/-- Modelled from the spec: a valid dotted-quad segment: non-empty, all
decimal digits, value in [0, 255]. -/
def isOctet (l : List Char) : Bool :=
  !l.isEmpty && l.all Char.isDigit && octetValue l ≤ 255

/-- Split a character list at every dot, keeping empty segments. -/
def splitOnDot : List Char → List (List Char)
  | [] => [[]]
  | c :: rest =>
    if c = '.' then [] :: splitOnDot rest
    else
      match splitOnDot rest with
      | [] => [[c]]
      | h :: t => (c :: h) :: t

/-- Modelled from the spec: `isValidIPv4(text) -> bool` (the utils.cpp
implementation is absent from src/): true iff the text parses as four
dot-separated decimal octets each in [0, 255], with no leading/trailing
garbage and no extra segments; malformed input yields false, never a
failure signal. -/
def isValidIPv4 (s : String) : Bool :=
  match splitOnDot s.toList with
  | [a, b, c, d] => isOctet a && isOctet b && isOctet c && isOctet d
  | _ => false

/-- The spec's characterization of an octet, as a proposition. -/
def OctetSpec (l : List Char) : Prop :=
  l ≠ [] ∧ (∀ c ∈ l, c.isDigit) ∧ octetValue l ≤ 255

/-- The spec's characterization of a dotted-quad IPv4 literal: exactly
four dot-separated decimal octets each in [0, 255], nothing else. -/
def IPv4Spec (s : String) : Prop :=
  ∃ a b c d : List Char,
    s.toList = a ++ ('.' :: (b ++ ('.' :: (c ++ ('.' :: d)))))
    ∧ OctetSpec a ∧ OctetSpec b ∧ OctetSpec c ∧ OctetSpec d

theorem splitOnDot_ne_nil (s : List Char) : splitOnDot s ≠ [] := by
  cases s with
  | nil => simp [splitOnDot]
  | cons c rest =>
    by_cases hc : c = '.'
    · simp [splitOnDot, hc]
    · simp only [splitOnDot, if_neg hc]
      cases splitOnDot rest with
      | nil => simp
      | cons h t => simp

theorem splitOnDot_no_dot (s : List Char) (hs : ∀ c ∈ s, c ≠ '.') :
    splitOnDot s = [s] := by
  induction s with
  | nil => rfl
  | cons c rest ih =>
    have hc : c ≠ '.' := hs c (List.mem_cons_self c rest)
    have hrest : ∀ x ∈ rest, x ≠ '.' := fun x hx => hs x (List.mem_cons_of_mem c hx)
    simp only [splitOnDot, if_neg hc, ih hrest]

theorem splitOnDot_append_dot (a r : List Char) (ha : ∀ c ∈ a, c ≠ '.') :
    splitOnDot (a ++ '.' :: r) = a :: splitOnDot r := by
  induction a with
  | nil => simp [splitOnDot]
  | cons c rest ih =>
    have hc : c ≠ '.' := ha c (List.mem_cons_self c rest)
    have hrest : ∀ x ∈ rest, x ≠ '.' := fun x hx => ha x (List.mem_cons_of_mem c hx)
    have ih' : splitOnDot (rest.append ('.' :: r)) = rest :: splitOnDot r :=
      ih hrest
    simp only [List.cons_append, splitOnDot, if_neg hc, ih', ih hrest]

/-- Rejoin the segments produced by `splitOnDot`, re-inserting dots. -/
def joinDots : List (List Char) → List Char
  | [] => []
  | [a] => a
  | a :: b :: t => a ++ '.' :: joinDots (b :: t)

theorem joinDots_cons_cons (h : List Char) (t : List (List Char)) (c : Char) :
    joinDots ((c :: h) :: t) = c :: joinDots (h :: t) := by
  cases t with
  | nil => rfl
  | cons b t' => simp [joinDots]

theorem splitOnDot_join (s : List Char) :
    joinDots (splitOnDot s) = s
    ∧ ∀ p ∈ splitOnDot s, ∀ c ∈ p, c ≠ '.' := by
  induction s with
  | nil => simp [splitOnDot, joinDots]
  | cons c rest ih =>
    obtain ⟨ihj, ihp⟩ := ih
    by_cases hc : c = '.'
    · subst hc
      constructor
      · simp only [splitOnDot, if_pos rfl]
        obtain ⟨h, t, hht⟩ : ∃ h t, splitOnDot rest = h :: t := by
          cases hq : splitOnDot rest with
          | nil => exact absurd hq (splitOnDot_ne_nil rest)
          | cons h t => exact ⟨h, t, rfl⟩
        rw [hht]
        rw [hht] at ihj
        simpa [joinDots] using ihj
      · intro p hp
        simp only [splitOnDot, if_pos rfl] at hp
        rcases List.mem_cons.mp hp with h1 | h2
        · subst h1
          intro x hx
          simp at hx
        · exact ihp p h2
    · constructor
      · simp only [splitOnDot, if_neg hc]
        cases hq : splitOnDot rest with
        | nil => exact absurd hq (splitOnDot_ne_nil rest)
        | cons h t =>
          rw [hq] at ihj
          rw [joinDots_cons_cons]
          rw [ihj]
      · intro p hp
        simp only [splitOnDot, if_neg hc] at hp
        cases hq : splitOnDot rest with
        | nil => exact absurd hq (splitOnDot_ne_nil rest)
        | cons h t =>
          rw [hq] at hp ihp
          rcases List.mem_cons.mp hp with h1 | h2
          · subst h1
            intro x hx
            rcases List.mem_cons.mp hx with hx1 | hx2
            · subst hx1
              exact hc
            · exact ihp h (List.mem_cons_self h t) x hx2
          · exact ihp p (List.mem_cons_of_mem h h2)

theorem isOctet_iff (l : List Char) : isOctet l = true ↔ OctetSpec l := by
  simp [isOctet, OctetSpec, List.isEmpty_iff, and_assoc]

theorem octet_no_dot (l : List Char) (h : OctetSpec l) : ∀ c ∈ l, c ≠ '.' := by
  intro c hc
  have hd : c.isDigit := h.2.1 c hc
  intro heq
  subst heq
  simp [Char.isDigit] at hd

/-- C6: isValidIPv4 returns true iff the text is four dot-separated
decimal octets each in [0, 255] with no leading/trailing garbage and no
extra segments; in particular it accepts "192.168.1.1" and rejects
"256.1.1.1" and "1.2.3"; being Bool-valued and total, malformed input
yields false rather than a failure signal. -/
theorem isValidIPv4_correct :
    (∀ s : String, isValidIPv4 s = true ↔ IPv4Spec s)
    ∧ isValidIPv4 "192.168.1.1" = true
    ∧ isValidIPv4 "256.1.1.1" = false
    ∧ isValidIPv4 "1.2.3" = false := by
  refine ⟨?_, by decide, by decide, by decide⟩
  intro s
  constructor
  · intro hv
    unfold isValidIPv4 at hv
    obtain ⟨hj, hnd⟩ := splitOnDot_join s.toList
    cases hq : splitOnDot s.toList with
    | nil => exact absurd hq (splitOnDot_ne_nil _)
    | cons a t1 =>
      rw [hq] at hv
      match t1, hv with
      | [b, c, d], hv =>
        rw [hq] at hj
        simp only [Bool.and_eq_true] at hv
        refine ⟨a, b, c, d, ?_, ?_, ?_, ?_, ?_⟩
        · rw [← hj]
          simp [joinDots]
        · exact (isOctet_iff a).mp hv.1.1.1
        · exact (isOctet_iff b).mp hv.1.1.2
        · exact (isOctet_iff c).mp hv.1.2
        · exact (isOctet_iff d).mp hv.2
  · rintro ⟨a, b, c, d, hs, ha, hb, hc, hd⟩
    unfold isValidIPv4
    rw [hs]
    rw [splitOnDot_append_dot a _ (octet_no_dot a ha),
        splitOnDot_append_dot b _ (octet_no_dot b hb),
        splitOnDot_append_dot c _ (octet_no_dot c hc),
        splitOnDot_no_dot d (octet_no_dot d hd)]
    simp [isOctet_iff a |>.mpr ha, isOctet_iff b |>.mpr hb,
      isOctet_iff c |>.mpr hc, isOctet_iff d |>.mpr hd]

/-- The fixed startup banner title line printed by main.cpp. -/
def banner : String := "=== Network Monitor ==="

/-- Embedding of `main` (main.cpp lines 4-11): prints the banner, then
`printSystemInfo()` (whose implementation file utils.cpp is absent from
src/; its output lines are abstracted as the parameter `sysInfo`), then
constructs `TCPConnection("192.168.1.1", 8080)` from a freshly allocated
literal buffer, calls `displayInfo`, prints the completion line, and
returns 0. -/
def mainRun (sysInfo : List String) : List String × Int :=
  (banner :: (sysInfo
      ++ [(TCPConnection.construct ((Heap.empty.alloc "192.168.1.1".toList).2)
              ((Heap.empty.alloc "192.168.1.1".toList).1) 8080).1.displayInfo
            ((TCPConnection.construct ((Heap.empty.alloc "192.168.1.1".toList).2)
              ((Heap.empty.alloc "192.168.1.1".toList).1) 8080).2),
          "Program completed successfully!"]), 0)

/-- C7: on a normal run the program prints the fixed startup banner title
line first — before any endpoint output, which appears strictly later in
the line sequence — and terminates with exit status 0. -/
theorem mainRun_banner_first_exit_zero (sysInfo : List String) :
    (mainRun sysInfo).2 = 0
    ∧ (mainRun sysInfo).1.head? = some banner
    ∧ (mainRun sysInfo).1
        = banner :: (sysInfo ++ ["TCP Connection: 192.168.1.1:8080",
            "Program completed successfully!"])
    ∧ (mainRun sysInfo).1[sysInfo.length + 1]?
        = some "TCP Connection: 192.168.1.1:8080" := by
  have hout : (mainRun sysInfo).1
      = banner :: (sysInfo ++ ["TCP Connection: 192.168.1.1:8080",
          "Program completed successfully!"]) := by
    unfold mainRun
    rw [displayScenario_eval]
  refine ⟨rfl, ?_, hout, ?_⟩
  · rw [hout]
    rfl
  · rw [hout]
    have hpos : (sysInfo ++ ["TCP Connection: 192.168.1.1:8080",
        "Program completed successfully!"])[sysInfo.length]?
        = some "TCP Connection: 192.168.1.1:8080" := by
      rw [List.getElem?_append_right (Nat.le_refl _)]
      simp
    simpa using hpos
